import Mathlib

/-!
Verification of the NCM container decryption tool (`ncm_crack.py`).

The program's byte strings are modelled as `List Nat` (each element one
byte), files as the list of their remaining bytes (sequential reads
consume a front segment), and the external cryptographic / codec
collaborators (AES-ECB from pycryptodome, `base64.b64decode`, UTF-8
decoding, `json.loads`) as abstract function parameters collected in the
`Externals` structure, since their implementations are not part of this
repository.  All functions of the repository itself are translated
directly from the source.
-/

/-- `CHUNK_SIZE = 0x8000`, the 32 KiB payload chunk size. -/
def CHUNK_SIZE : Nat := 0x8000

/-- `NCM_HEADER = b"4354454e4644414d"`, the ASCII bytes of the
lowercase hex encoding the magic is compared against. -/
def NCM_HEADER : List Nat := [52, 51, 53, 52, 52, 53, 52, 101, 52, 54, 52, 52, 52, 49, 52, 100]

/-- The eight raw magic bytes (ASCII "CTENFDAM") whose hex encoding is
`NCM_HEADER`; used to state properties about the magic check. -/
def MAGIC_BYTES : List Nat := [0x43, 0x54, 0x45, 0x4E, 0x46, 0x44, 0x41, 0x4D]

/-- One lowercase hex digit, as produced by `binascii.b2a_hex`
(`48 + n` is the ASCII digit, `87 + n` the ASCII lowercase letter). -/
def hex_digit (n : Nat) : Nat := if n < 10 then 48 + n else 87 + n

/-- `binascii.b2a_hex`: each byte becomes two lowercase hex digit
characters (high nibble first). -/
def b2a_hex (l : List Nat) : List Nat :=
  (l.map (fun b => [hex_digit (b / 16), hex_digit (b % 16)])).flatten

/-- `unpad` from the source: `padding_len = data[-1]`;
`return data[:-padding_len]`.  A Python slice `data[:-n]` is the first
`len(data) - n` bytes for `n > 0`, and is empty for `n = 0` (because
`-0 == 0`). -/
def unpad (data : List Nat) : List Nat :=
  let paddingLen := data.getLast?.getD 0
  if paddingLen = 0 then [] else data.take (data.length - paddingLen)

/-- `detect_audio_format` from the source: FLAC magic, then ID3 tag,
then MPEG frame sync, then the `"mp3"` default. -/
def detect_audio_format (data : List Nat) : String :=
  if 4 ≤ data.length ∧ data.take 4 = [0x66, 0x4C, 0x61, 0x43] then "flac"
  else if 3 ≤ data.length ∧ data.take 3 = [0x49, 0x44, 0x33] then "mp3"
  else if 2 ≤ data.length ∧ data.getD 0 0 = 0xFF ∧ (data.getD 1 0) &&& 0xE0 = 0xE0 then "mp3"
  else "mp3"

/-- One iteration of the `_build_key_box` loop.  State is
`(key_box, last_byte, key_offset)`.  The Python parallel assignment
`key_box[i], key_box[c] = key_box[c], swap` writes the old `key_box[c]`
at `i` and then `swap` (the old `key_box[i]`) at `c`. -/
def kb_step (keyData : List Nat) (st : List Nat × Nat × Nat) (i : Nat) : List Nat × Nat × Nat :=
  let box := st.1
  let lastByte := st.2.1
  let keyOffset := st.2.2
  let swap := box.getD i 0
  let c := (swap + lastByte + keyData.getD keyOffset 0) % 256
  ((box.set i (box.getD c 0)).set c swap, c, (keyOffset + 1) % keyData.length)

/-- `_build_key_box` from the source: starts from `bytearray(range(256))`
and performs the 256 swap iterations. -/
def build_key_box (keyData : List Nat) : List Nat :=
  ((List.range 256).foldl (kb_step keyData) (List.range 256, 0, 0)).1

/-- The byte written at index `i` by `_create_decryption_mask`:
`mask[i] = key_box[(key_box[j] + key_box[(key_box[j] + j) & 0xFF]) & 0xFF]`
with `j = (i + 1) & 0xFF`. -/
def mask_byte (box : List Nat) (i : Nat) : Nat :=
  let j := (i + 1) % 256
  box.getD ((box.getD j 0 + box.getD ((box.getD j 0 + j) % 256) 0) % 256) 0

/-- The 256-byte mask filled by the loop of `_create_decryption_mask`. -/
def base_mask (box : List Nat) : List Nat := (List.range 256).map (mask_byte box)

/-- `_create_decryption_mask` from the source:
`bytes(mask) * (CHUNK_SIZE // 256)`, i.e. the 256-byte mask repeated. -/
def create_decryption_mask (box : List Nat) : List Nat :=
  (List.replicate (CHUNK_SIZE / 256) (base_mask box)).flatten

/-- Error outcomes of `NCMDecryptor.decrypt` (Python exceptions). -/
inductive DecryptError where
  | invalidContainer : DecryptError
  | truncated : DecryptError
  | cryptoFailure : DecryptError
deriving DecidableEq, Repr

/-- The metadata record, reduced to the only field the decode path
reads (`self.metadata.get("format", "mp3")`). -/
structure NCMMeta where
  format : Option String
deriving DecidableEq, Repr

/-- The external collaborators used by the decode path: AES-ECB
decryption with the two fixed application keys, base64 decoding, UTF-8
decoding and JSON parsing.  They are parameters of the embedding; the
fallible ones return `Except Unit`. -/
structure Externals where
  aes_core_decrypt : List Nat → List Nat
  aes_meta_decrypt : List Nat → List Nat
  b64_decode : List Nat → Except Unit (List Nat)
  utf8_decode : List Nat → Except Unit String
  json_parse : String → Except Unit NCMMeta

/-- `struct.unpack("<I", file.read(4))`: little-endian 32-bit read;
`struct.error` (modelled as `truncated`) if fewer than 4 bytes remain. -/
def read_u32_le (s : List Nat) : Except DecryptError (Nat × List Nat) :=
  match s with
  | a :: b :: c :: d :: rest => Except.ok (a + b * 256 + c * 65536 + d * 16777216, rest)
  | _ => Except.error DecryptError.truncated

/-- XOR every byte with a fixed constant (the `^= 0x64` / `^= 0x63`
loops of the source). -/
def xor_const (k : Nat) (l : List Nat) : List Nat := l.map (fun b => b ^^^ k)

/-- `_read_key_data`: skip 2 bytes, read the length-prefixed key blob,
XOR with `0x64`, AES-ECB decrypt, PKCS7-unpad, drop 17 bytes.  `unpad`
on an empty decryption raises in Python (`data[-1]` on `b""`), modelled
as `cryptoFailure`. -/
def read_key_data (E : Externals) (s : List Nat) : Except DecryptError (List Nat × List Nat) := do
  let (keyLength, s1) ← read_u32_le (s.drop 2)
  let keyData := xor_const 0x64 (s1.take keyLength)
  let s2 := s1.drop keyLength
  let dec := E.aes_core_decrypt keyData
  if dec = [] then Except.error DecryptError.cryptoFailure
  else Except.ok ((unpad dec).drop 17, s2)

/-- `_read_metadata`: read the length-prefixed blob, XOR with `0x63`,
drop 22 bytes, base64-decode, AES-ECB decrypt, PKCS7-unpad, UTF-8
decode, drop 6 characters, JSON-parse.  Any failure raises in Python;
none of these exceptions is caught anywhere inside `decrypt`. -/
def read_metadata (E : Externals) (s : List Nat) : Except DecryptError (NCMMeta × List Nat) := do
  let (metaLength, s1) ← read_u32_le s
  let metaData := xor_const 0x63 (s1.take metaLength)
  let s2 := s1.drop metaLength
  match E.b64_decode (metaData.drop 22) with
  | Except.error _ => Except.error DecryptError.cryptoFailure
  | Except.ok decoded =>
    let plain := E.aes_meta_decrypt decoded
    if plain = [] then Except.error DecryptError.cryptoFailure
    else
      match E.utf8_decode (unpad plain) with
      | Except.error _ => Except.error DecryptError.cryptoFailure
      | Except.ok str =>
        match E.json_parse (str.drop 6) with
        | Except.error _ => Except.error DecryptError.cryptoFailure
        | Except.ok m => Except.ok (m, s2)

/-- `_skip_image_data`: read 4 CRC bytes (discarded), seek 5, read the
image length, seek past the image. -/
def skip_image_data (s : List Nat) : Except DecryptError (List Nat) := do
  let (imageSize, s2) ← read_u32_le ((s.drop 4).drop 5)
  Except.ok (s2.drop imageSize)

/-- The magic validation of `decrypt`:
`binascii.b2a_hex(f.read(8)) == NCM_HEADER`. -/
def check_magic (s : List Nat) : Bool := b2a_hex (s.take 8) == NCM_HEADER

/-- The header part of `NCMDecryptor.decrypt`: magic check, key blob
decryption, key box construction (which in Python indexes into the key
material and hence raises if it is empty), metadata read, image skip.
Returns the key box, the metadata and the remaining audio payload. -/
def parse_head (E : Externals) (s : List Nat) :
    Except DecryptError (List Nat × NCMMeta × List Nat) :=
  if check_magic s then do
    let (keyData, s1) ← read_key_data E (s.drop 8)
    if keyData = [] then Except.error DecryptError.cryptoFailure
    else do
      let (meta, s2) ← read_metadata E s1
      let s3 ← skip_image_data s2
      Except.ok (build_key_box keyData, meta, s3)
  else Except.error DecryptError.invalidContainer

/-- The payload loop of `decrypt`: read `CHUNK_SIZE`-byte chunks, XOR
each with the mask truncated to the chunk length (pycryptodome `strxor`
on equal-length arguments), sniff the format on the first chunk only.
Returns the final format string and the decrypted bytes. -/
def audio_loop (mask : List Nat) (s : List Nat) (firstChunk : Bool) (fmt : String) :
    String × List Nat :=
  if h : s = [] then (fmt, [])
  else
    let chunk := s.take CHUNK_SIZE
    let decrypted := List.zipWith Nat.xor chunk (mask.take chunk.length)
    let fmt2 := if firstChunk then detect_audio_format decrypted else fmt
    let rest := audio_loop mask (s.drop CHUNK_SIZE) false fmt2
    (rest.1, decrypted ++ rest.2)
termination_by s.length
decreasing_by
  simp only [List.length_drop, CHUNK_SIZE]
  have := List.length_pos.mpr h
  omega

/-- `NCMDecryptor.decrypt`: header parsing, mask creation, chunked
payload decryption.  The initial format is
`self.metadata.get("format", "mp3")`; the returned string is the final
output extension. -/
def decrypt (E : Externals) (s : List Nat) :
    Except DecryptError (String × List Nat × NCMMeta) := do
  let (box, meta, rest) ← parse_head E s
  let fullMask := create_decryption_mask box
  let r := audio_loop fullMask rest true (meta.format.getD "mp3")
  Except.ok (r.1, r.2, meta)

/-- The index (if any) at which `pathlib`'s suffix of a single-component
file name starts: the last `'.'` that is neither the first nor the last
character. -/
def path_suffix_start (name : List Char) : Option Nat :=
  ((List.range name.length).filter
    (fun i => name.getD i ' ' == '.' && decide (0 < i) && decide (i + 1 < name.length))).getLast?

/-- `pathlib.PurePath.with_suffix` on a single-component name: replace
the suffix if there is one, otherwise append. -/
def with_suffix (name ext : String) : String :=
  match path_suffix_start name.toList with
  | some i => String.mk (name.toList.take i) ++ ext
  | none => name ++ ext

/-- `_is_already_converted`: `False` when overwriting, otherwise an
existence check of `base_path.with_suffix(".mp3")` and
`base_path.with_suffix(".flac")`.  The file system is modelled as the
predicate `fs`; `base` is the `parent_dir / base_name` path string. -/
def is_already_converted (overwrite : Bool) (fs : String → Bool) (base : String) : Bool :=
  if overwrite then false
  else fs (with_suffix base ".mp3") || fs (with_suffix base ".flac")

/-- The retry loop of `_convert_single_file` (`for attempt in
range(max_retries)`), with the decode attempt abstracted as the
fallible `decode`.  Returns the outcome, the number of decode attempts
performed, and the total `time.sleep(3)` delay units slept between
attempts. -/
def retry_loop (decode : Nat → Except Unit Unit) (maxRetries attempt : Nat) :
    Bool × Nat × Nat :=
  if h : attempt < maxRetries then
    match decode attempt with
    | Except.ok _ => (true, 1, 0)
    | Except.error _ =>
      if attempt < maxRetries - 1 then
        let r := retry_loop decode maxRetries (attempt + 1)
        (r.1, r.2.1 + 1, r.2.2 + 3)
      else (false, 1, 0)
  else (false, 0, 0)
termination_by maxRetries - attempt
decreasing_by omega

/-- `_convert_single_file`: skip (`None`) when already converted,
otherwise run the retry loop.  Result is `(outcome, attempts, delay)`
where `outcome` is `none` for Skipped, `some true` for Succeeded and
`some false` for Failed. -/
def convert_single_file (overwrite : Bool) (fs : String → Bool) (base : String)
    (decode : Nat → Except Unit Unit) (maxRetries : Nat) : Option Bool × Nat × Nat :=
  if is_already_converted overwrite fs base then (none, 0, 0)
  else
    let r := retry_loop decode maxRetries 0
    (some r.1, r.2.1, r.2.2)

/-- Modelled from the claim's wording for the round-trip property: the
keystream tiled to length `n` (the mask has period 256). -/
def tiled_mask (box : List Nat) (n : Nat) : List Nat :=
  (List.range n).map (fun i => mask_byte box (i % 256))

/-- Modelled from the claim's wording for the round-trip property:
XOR-encrypting a plaintext payload with the tiled keystream mask. -/
def xor_encrypt (box p : List Nat) : List Nat :=
  List.zipWith Nat.xor p (tiled_mask box p.length)

/-- A concrete instantiation of the external collaborators used to
evaluate the pipeline on explicit containers.  On the inputs that the
explicit containers below produce (the empty byte string) `id` and
`Except.ok` agree with the real libraries: AES-ECB decryption and
`base64.b64decode` of `b""` are `b""`. -/
def ext0 : Externals :=
  { aes_core_decrypt := id
    aes_meta_decrypt := id
    b64_decode := fun l => Except.ok l
    utf8_decode := fun _ => Except.ok ""
    json_parse := fun _ => Except.ok ⟨none⟩ }

/-- An explicit container with a valid magic and a valid key blob
(19 ciphertext bytes that decrypt, unpad and trim to the single key
byte `0`) whose metadata blob has length 0, so `_read_metadata` fails
(`unpad` of the empty AES output raises in Python). -/
def s6 : List Nat :=
  MAGIC_BYTES ++ [0, 0] ++ [19, 0, 0, 0] ++ (List.replicate 18 0x64 ++ [0x65]) ++ [0, 0, 0, 0]

/-- An explicit well-formed container whose audio payload region is
empty: valid magic, the same key blob as `s6`, a metadata blob that
parses to a record with no `format` field, and a zero-length embedded
image region, with the file ending right after the image region. -/
def s10 : List Nat :=
  MAGIC_BYTES ++ [0, 0] ++ [19, 0, 0, 0] ++ (List.replicate 18 0x64 ++ [0x65]) ++
    [24, 0, 0, 0] ++ (List.replicate 22 0x63 ++ [0x63, 0x62]) ++ List.replicate 13 0

/-! ## Theorems -/

lemma audio_loop_nil (mask : List Nat) (fc : Bool) (f : String) :
    audio_loop mask [] fc f = (f, []) := by
  rw [audio_loop]
  simp

lemma audio_loop_ne (mask s : List Nat) (fc : Bool) (f : String) (h : s ≠ []) :
    audio_loop mask s fc f =
      (let chunk := s.take CHUNK_SIZE
       let decrypted := List.zipWith Nat.xor chunk (mask.take chunk.length)
       let fmt2 := if fc then detect_audio_format decrypted else f
       let rest := audio_loop mask (s.drop CHUNK_SIZE) false fmt2
       (rest.1, decrypted ++ rest.2)) := by
  rw [audio_loop]
  simp [h]

lemma audio_loop_fmt_false (mask : List Nat) :
    ∀ (n : Nat) (s : List Nat), s.length ≤ n → ∀ (f : String),
      (audio_loop mask s false f).1 = f := by
  intro n
  induction n with
  | zero =>
    intro s hs f
    have hnil : s = [] := by cases s <;> simp_all
    subst hnil
    rw [audio_loop_nil]
  | succ n ih =>
    intro s hs f
    by_cases h : s = []
    · subst h
      rw [audio_loop_nil]
    · rw [audio_loop_ne _ _ _ _ h]
      simp only [if_neg Bool.false_ne_true]
      have hpos : 0 < s.length := List.length_pos.mpr h
      have hd : (s.drop CHUNK_SIZE).length ≤ n := by
        simp only [List.length_drop, CHUNK_SIZE] at *
        omega
      exact ih _ hd f

lemma audio_loop_fmt_first (mask s : List Nat) (f : String) (h : s ≠ []) :
    (audio_loop mask s true f).1 =
      detect_audio_format
        (List.zipWith Nat.xor (s.take CHUNK_SIZE) (mask.take (s.take CHUNK_SIZE).length)) := by
  rw [audio_loop_ne _ _ _ _ h]
  simp only [if_pos rfl]
  exact audio_loop_fmt_false mask _ _ (Nat.le_refl _) _

lemma detect_not_flac (d : List Nat) (h : d.take 4 ≠ [0x66, 0x4C, 0x61, 0x43]) :
    detect_audio_format d = "mp3" := by
  unfold detect_audio_format
  rw [if_neg (fun hc => h hc.2)]
  split_ifs <;> rfl

/-- C5: `detect_audio_format` classifies by the leading bytes — FLAC
magic gives `"flac"`, an ID3 tag or an MPEG frame sync gives `"mp3"`,
anything else defaults to `"mp3"` — and in the decode loop the
classification of the first decoded chunk determines the returned
output format, overriding the initial (metadata-supplied) format. -/
theorem format_sniffer_spec (d mask s : List Nat) (f0 : String) :
    (d.take 4 = [0x66, 0x4C, 0x61, 0x43] → detect_audio_format d = "flac")
    ∧ (d.take 4 ≠ [0x66, 0x4C, 0x61, 0x43] → d.take 3 = [0x49, 0x44, 0x33] →
        detect_audio_format d = "mp3")
    ∧ (d.take 4 ≠ [0x66, 0x4C, 0x61, 0x43] → d.take 3 ≠ [0x49, 0x44, 0x33] →
        d.getD 0 0 = 0xFF → (d.getD 1 0) &&& 0xE0 = 0xE0 →
        detect_audio_format d = "mp3")
    ∧ (d.take 4 ≠ [0x66, 0x4C, 0x61, 0x43] → detect_audio_format d = "mp3")
    ∧ (s ≠ [] → (audio_loop mask s true f0).1 =
        detect_audio_format
          (List.zipWith Nat.xor (s.take CHUNK_SIZE) (mask.take (s.take CHUNK_SIZE).length))) := by
  refine ⟨?_, ?_, ?_, ?_, ?_⟩
  · intro h
    have hlen : 4 ≤ d.length := by
      have := congrArg List.length h
      simp [List.length_take] at this
      omega
    unfold detect_audio_format
    rw [if_pos ⟨hlen, h⟩]
  · intro h _
    exact detect_not_flac d h
  · intro h _ _ _
    exact detect_not_flac d h
  · intro h
    exact detect_not_flac d h
  · intro h
    exact audio_loop_fmt_first mask s f0 h

/-- Witness for C5 at concrete inputs: FLAC magic bytes give `"flac"`,
and on a nonempty one-byte payload the loop's format is the sniffed
format of the decoded first chunk. -/
theorem format_sniffer_spec_witness :
    detect_audio_format [0x66, 0x4C, 0x61, 0x43, 9] = "flac"
    ∧ (audio_loop [0xAA] [0x17] true "flac").1 =
        detect_audio_format
          (List.zipWith Nat.xor (([0x17] : List Nat).take CHUNK_SIZE)
            (([0xAA] : List Nat).take (([0x17] : List Nat).take CHUNK_SIZE).length)) := by
  constructor
  · exact (format_sniffer_spec [0x66, 0x4C, 0x61, 0x43, 9] [] [] "").1 (by decide)
  · exact (format_sniffer_spec [] [0xAA] [0x17] "flac").2.2.2.2 (by decide)

/-- C9 counterexample: on `[1, 0]` the last byte is `0`, Python's
`data[:-0]` is the empty slice, so `unpad` returns `[]`, while the
claim ("data with its last `data[-1]` bytes removed") demands the
unchanged `[1, 0]`. -/
theorem unpad_zero_cex :
    unpad [1, 0] = []
    ∧ ([1, 0] : List Nat).getLast? = some 0
    ∧ unpad [1, 0] ≠ ([1, 0] : List Nat).take (([1, 0] : List Nat).length - 0) := by
  refine ⟨by decide, by decide, by decide⟩

/-- C9 amended: for every non-empty byte sequence whose last byte is
nonzero, `unpad` removes exactly that many trailing bytes; when the
last byte is `0` the result is `[]` instead (shown by the
counterexample). -/
theorem unpad_spec_amended (data : List Nat) (h : data ≠ [])
    (h0 : data.getLast h ≠ 0) :
    unpad data = data.take (data.length - data.getLast h) := by
  unfold unpad
  rw [List.getLast?_eq_getLast data h]
  simp only [Option.getD_some]
  rw [if_neg h0]

/-- Witness for the amended C9 at `[1, 2, 3, 2]`. -/
theorem unpad_spec_amended_witness :
    ([1, 2, 3, 2] : List Nat) ≠ []
    ∧ unpad [1, 2, 3, 2] =
        ([1, 2, 3, 2] : List Nat).take
          (([1, 2, 3, 2] : List Nat).length - ([1, 2, 3, 2] : List Nat).getLast (by decide)) := by
  exact ⟨by decide, unpad_spec_amended [1, 2, 3, 2] (by decide) (by decide)⟩

lemma retry_loop_all_fail (decode : Nat → Except Unit Unit)
    (hfail : ∀ k, decode k = Except.error ()) :
    ∀ (n maxRetries attempt : Nat), maxRetries - attempt ≤ n →
      retry_loop decode maxRetries attempt =
        (false, maxRetries - attempt, 3 * (maxRetries - attempt - 1)) := by
  intro n
  induction n with
  | zero =>
    intro maxRetries attempt hle
    have h : ¬ attempt < maxRetries := by omega
    rw [retry_loop, dif_neg h]
    have h0 : maxRetries - attempt = 0 := by omega
    rw [h0]
  | succ n ih =>
    intro maxRetries attempt hle
    by_cases h : attempt < maxRetries
    · rw [retry_loop, dif_pos h, hfail attempt]
      by_cases h2 : attempt < maxRetries - 1
      · rw [if_pos h2, ih maxRetries (attempt + 1) (by omega)]
        have e1 : maxRetries - (attempt + 1) + 1 = maxRetries - attempt := by omega
        have e2 : 3 * (maxRetries - (attempt + 1) - 1) + 3 = 3 * (maxRetries - attempt - 1) := by
          omega
        simp [e1, e2]
      · rw [if_neg h2]
        have e1 : maxRetries - attempt = 1 := by omega
        rw [e1]
    · rw [retry_loop, dif_neg h]
      have h0 : maxRetries - attempt = 0 := by omega
      rw [h0]

/-- C7: when the output does not already exist and every decode attempt
throws, `_convert_single_file` performs exactly `maxRetries` decode
attempts, sleeps the fixed 3-unit delay between consecutive attempts
(total `3 * (maxRetries - 1)`), and returns Failed (`some false`),
never Succeeded.  The source's default budget is `max_retries = 5`. -/
theorem retry_budget_spec (overwrite : Bool) (fs : String → Bool) (base : String)
    (decode : Nat → Except Unit Unit) (maxRetries : Nat)
    (hnot : is_already_converted overwrite fs base = false)
    (hfail : ∀ k, decode k = Except.error ()) :
    convert_single_file overwrite fs base decode maxRetries =
      (some false, maxRetries, 3 * (maxRetries - 1)) := by
  unfold convert_single_file
  rw [hnot]
  rw [retry_loop_all_fail decode hfail maxRetries maxRetries 0 (by omega)]
  simp

/-- Witness for C7 at the reference budget 5: five failed attempts,
twelve delay units, outcome Failed. -/
theorem retry_budget_spec_witness :
    is_already_converted false (fun _ => false) "song" = false
    ∧ convert_single_file false (fun _ => false) "song" (fun _ => Except.error ()) 5 =
        (some false, 5, 3 * (5 - 1)) := by
  exact ⟨by decide,
    retry_budget_spec false (fun _ => false) "song" (fun _ => Except.error ()) 5
      (by decide) (fun k => rfl)⟩

lemma with_suffix_no_dot (name ext : String) (h : ¬ '.' ∈ name.toList) :
    with_suffix name ext = name ++ ext := by
  unfold with_suffix path_suffix_start
  have hfil :
      ((List.range name.toList.length).filter
        (fun i => name.toList.getD i ' ' == '.' && decide (0 < i) &&
          decide (i + 1 < name.toList.length))) = [] := by
    rw [List.filter_eq_nil_iff]
    intro i hi
    have hlt : i < name.toList.length := List.mem_range.mp hi
    intro hand
    simp only [Bool.and_eq_true, beq_iff_eq, decide_eq_true_eq] at hand
    have hdot : name.toList.getD i ' ' = '.' := hand.1.1
    rw [List.getD_eq_getElem name.toList ' ' hlt] at hdot
    exact absurd (hdot ▸ List.getElem_mem hlt) h
  rw [hfil]
  rfl

/-- C8 counterexample: the base name `"a.b"` (a stem containing a dot).
The converter writes its output as the concatenation `"a.b" ++ ".mp3"`,
but `_is_already_converted` probes `with_suffix`, which replaces the
dotted tail and probes `"a.mp3"` instead; so even though `"a.b.mp3"`
exists in the destination and overwrite is off, the job is not skipped
(it runs its decode attempts and fails rather than returning `none`). -/
theorem skip_check_cex :
    is_already_converted false (fun p => p == "a.b" ++ ".mp3") "a.b" = false
    ∧ (fun p => p == "a.b" ++ ".mp3") ("a.b" ++ ".mp3") = true
    ∧ convert_single_file false (fun p => p == "a.b" ++ ".mp3") "a.b"
        (fun _ => Except.error ()) 5 ≠ (none, 0, 0) := by
  refine ⟨by decide, by decide, ?_⟩
  rw [retry_budget_spec false (fun p => p == "a.b" ++ ".mp3") "a.b"
    (fun _ => Except.error ()) 5 (by decide) (fun k => rfl)]
  decide

/-- C8 amended: for base names containing no `'.'` (for which
`with_suffix` coincides with plain concatenation) the claim holds as
stated: with overwrite off, an existing `.mp3` or `.flac` output with
the same base name makes `_convert_single_file` return Skipped
(`none`) with zero decode attempts and zero delay; with overwrite on,
the existence check reports not-converted and the job proceeds into
the retry loop. -/
theorem skip_check_amended (overwrite : Bool) (fs : String → Bool) (base : String)
    (decode : Nat → Except Unit Unit) (maxRetries : Nat)
    (hdot : ¬ '.' ∈ base.toList) :
    (overwrite = false → (fs (base ++ ".mp3") || fs (base ++ ".flac")) = true →
      convert_single_file overwrite fs base decode maxRetries = (none, 0, 0))
    ∧ (overwrite = true → is_already_converted overwrite fs base = false
        ∧ (convert_single_file overwrite fs base decode maxRetries).1 =
            some (retry_loop decode maxRetries 0).1) := by
  constructor
  · intro hov hex
    unfold convert_single_file
    have hconv : is_already_converted overwrite fs base = true := by
      unfold is_already_converted
      rw [hov]
      rw [if_neg Bool.false_ne_true]
      rw [with_suffix_no_dot base ".mp3" hdot, with_suffix_no_dot base ".flac" hdot]
      exact hex
    simp [hconv]
  · intro hov
    have hconv : is_already_converted overwrite fs base = false := by
      unfold is_already_converted
      simp [hov]
    refine ⟨hconv, ?_⟩
    unfold convert_single_file
    simp [hconv]

/-- Witness for the amended C8: base `"x"` with `"x.mp3"` present and
overwrite off is Skipped with no work done. -/
theorem skip_check_amended_witness :
    (¬ '.' ∈ "x".toList)
    ∧ convert_single_file false (fun p => p == "x.mp3") "x"
        (fun _ => Except.error ()) 5 = (none, 0, 0) := by
  refine ⟨by decide, ?_⟩
  exact (skip_check_amended false (fun p => p == "x.mp3") "x"
    (fun _ => Except.error ()) 5 (by decide)).1 rfl (by decide)

lemma hex_digit_inj (a b : Nat) (h : hex_digit a = hex_digit b) : a = b := by
  unfold hex_digit at h
  split_ifs at h <;> omega

lemma b2a_hex_cons (a : Nat) (t : List Nat) :
    b2a_hex (a :: t) = hex_digit (a / 16) :: hex_digit (a % 16) :: b2a_hex t := by
  simp [b2a_hex]

lemma b2a_hex_inj : ∀ (l1 l2 : List Nat), b2a_hex l1 = b2a_hex l2 → l1 = l2 := by
  intro l1
  induction l1 with
  | nil =>
    intro l2 h
    cases l2 with
    | nil => rfl
    | cons b t2 => rw [b2a_hex_cons] at h; simp [b2a_hex] at h
  | cons a t ih =>
    intro l2 h
    cases l2 with
    | nil => rw [b2a_hex_cons] at h; simp [b2a_hex] at h
    | cons b t2 =>
      rw [b2a_hex_cons, b2a_hex_cons] at h
      have h1 := hex_digit_inj _ _ (List.head_eq_of_cons_eq h)
      have hrest := List.tail_eq_of_cons_eq h
      have h2 := hex_digit_inj _ _ (List.head_eq_of_cons_eq hrest)
      have h3 := ih t2 (List.tail_eq_of_cons_eq hrest)
      have hab : a = b := by
        have da := Nat.div_add_mod a 16
        have db := Nat.div_add_mod b 16
        omega
      rw [hab, h3]

lemma check_magic_iff (s : List Nat) : check_magic s = true ↔ s.take 8 = MAGIC_BYTES := by
  constructor
  · intro h
    unfold check_magic at h
    have hb : b2a_hex (s.take 8) = NCM_HEADER := eq_of_beq h
    have hm : NCM_HEADER = b2a_hex MAGIC_BYTES := by decide
    exact b2a_hex_inj _ _ (hb.trans hm)
  · intro h
    unfold check_magic
    rw [h]
    decide

lemma read_u32_le_error (s : List Nat) (e : DecryptError)
    (h : read_u32_le s = Except.error e) : e = DecryptError.truncated := by
  unfold read_u32_le at h
  split at h
  · simp at h
  · simp at h
    exact h.symm

lemma read_key_data_error (E : Externals) (s : List Nat) (e : DecryptError)
    (h : read_key_data E s = Except.error e) :
    e = DecryptError.truncated ∨ e = DecryptError.cryptoFailure := by
  unfold read_key_data at h
  cases hu : read_u32_le (s.drop 2) with
  | error e2 =>
    have ht := read_u32_le_error _ e2 hu
    rw [hu] at h
    simp only [Bind.bind, Except.bind] at h
    simp at h
    left
    rw [← h, ht]
  | ok p =>
    obtain ⟨len, s1⟩ := p
    rw [hu] at h
    simp only [Bind.bind, Except.bind] at h
    split at h
    · simp at h
      right
      rw [← h]
    · simp at h

lemma read_metadata_error (E : Externals) (s : List Nat) (e : DecryptError)
    (h : read_metadata E s = Except.error e) :
    e = DecryptError.truncated ∨ e = DecryptError.cryptoFailure := by
  unfold read_metadata at h
  cases hu : read_u32_le s with
  | error e2 =>
    have ht := read_u32_le_error _ e2 hu
    rw [hu] at h
    simp only [Bind.bind, Except.bind] at h
    simp at h
    left
    rw [← h, ht]
  | ok p =>
    obtain ⟨len, s1⟩ := p
    rw [hu] at h
    simp only [Bind.bind, Except.bind] at h
    split at h
    · simp at h
      right
      rw [← h]
    · split at h
      · simp at h
        right
        rw [← h]
      · split at h
        · simp at h
          right
          rw [← h]
        · split at h
          · simp at h
            right
            rw [← h]
          · simp at h

lemma skip_image_data_error (s : List Nat) (e : DecryptError)
    (h : skip_image_data s = Except.error e) : e = DecryptError.truncated := by
  unfold skip_image_data at h
  cases hu : read_u32_le ((s.drop 4).drop 5) with
  | error e2 =>
    have ht := read_u32_le_error _ e2 hu
    rw [hu] at h
    simp only [Bind.bind, Except.bind] at h
    simp at h
    rw [← h, ht]
  | ok p =>
    obtain ⟨len, s1⟩ := p
    rw [hu] at h
    simp only [Bind.bind, Except.bind] at h
    simp at h

lemma parse_head_magic_false (E : Externals) (s : List Nat) (h : check_magic s = false) :
    parse_head E s = Except.error DecryptError.invalidContainer := by
  unfold parse_head
  rw [h]
  rfl

lemma parse_head_magic_true (E : Externals) (s : List Nat) (hm : check_magic s = true) :
    parse_head E s =
      (do
        let (keyData, s1) ← read_key_data E (s.drop 8)
        if keyData = [] then Except.error DecryptError.cryptoFailure
        else do
          let (meta, s2) ← read_metadata E s1
          let s3 ← skip_image_data s2
          Except.ok (build_key_box keyData, meta, s3)) := by
  unfold parse_head
  rw [hm]
  rfl

lemma parse_head_error_of_magic (E : Externals) (s : List Nat) (e : DecryptError)
    (hm : check_magic s = true) (h : parse_head E s = Except.error e) :
    e ≠ DecryptError.invalidContainer := by
  rw [parse_head_magic_true E s hm] at h
  cases hk : read_key_data E (s.drop 8) with
  | error e2 =>
    rw [hk] at h
    simp only [Bind.bind, Except.bind] at h
    simp at h
    rcases read_key_data_error E (s.drop 8) e2 hk with h2 | h2 <;> simp [← h, h2]
  | ok p =>
    obtain ⟨keyData, s1⟩ := p
    rw [hk] at h
    simp only [Bind.bind, Except.bind] at h
    split at h
    · simp at h
      simp [← h]
    · cases hmd : read_metadata E s1 with
      | error e3 =>
        rw [hmd] at h
        simp only [Bind.bind, Except.bind] at h
        simp at h
        rcases read_metadata_error E s1 e3 hmd with h2 | h2 <;> simp [← h, h2]
      | ok q =>
        obtain ⟨meta, s2⟩ := q
        rw [hmd] at h
        simp only [Bind.bind, Except.bind] at h
        cases hsk : skip_image_data s2 with
        | error e4 =>
          rw [hsk] at h
          simp only [Bind.bind, Except.bind] at h
          simp at h
          simp [← h, skip_image_data_error s2 e4 hsk]
        | ok s3 =>
          rw [hsk] at h
          simp only [Bind.bind, Except.bind] at h
          simp at h

lemma decrypt_error_parse (E : Externals) (s : List Nat) (e : DecryptError)
    (h : decrypt E s = Except.error e) : parse_head E s = Except.error e := by
  unfold decrypt at h
  cases hp : parse_head E s with
  | error e2 =>
    rw [hp] at h
    simp only [Bind.bind, Except.bind] at h
    simp at h
    rw [← h]
  | ok p =>
    obtain ⟨box, meta, rest⟩ := p
    rw [hp] at h
    simp only [Bind.bind, Except.bind] at h
    simp at h

/-- C4: a stream whose first 8 bytes do not hex-encode to the magic
constant makes `decrypt` fail with the invalid-container error no
matter what follows, and a stream whose first 8 bytes do match never
produces that error. -/
theorem magic_check_spec (E : Externals) (s : List Nat) :
    (s.take 8 ≠ MAGIC_BYTES → decrypt E s = Except.error DecryptError.invalidContainer)
    ∧ (s.take 8 = MAGIC_BYTES → decrypt E s ≠ Except.error DecryptError.invalidContainer) := by
  constructor
  · intro h
    have hm : check_magic s = false := by
      cases hcm : check_magic s
      · rfl
      · exact absurd ((check_magic_iff s).mp hcm) h
    unfold decrypt
    rw [parse_head_magic_false E s hm]
    rfl
  · intro h hd
    have hm : check_magic s = true := (check_magic_iff s).mpr h
    exact parse_head_error_of_magic E s _ hm (decrypt_error_parse E s _ hd) rfl

/-- Witness for C4: a three-byte stream fails as invalid, and the
valid-magic container `s10` does not raise the invalid-container
error. -/
theorem magic_check_spec_witness :
    (([1, 2, 3] : List Nat).take 8 ≠ MAGIC_BYTES)
    ∧ decrypt ext0 [1, 2, 3] = Except.error DecryptError.invalidContainer
    ∧ (s10.take 8 = MAGIC_BYTES)
    ∧ decrypt ext0 s10 ≠ Except.error DecryptError.invalidContainer := by
  refine ⟨by decide, (magic_check_spec ext0 [1, 2, 3]).1 (by decide), by decide,
    (magic_check_spec ext0 s10).2 (by decide)⟩

/-- C6 counterexample: the container `s6` has a valid magic and a valid
key blob (shown explicitly), but its metadata blob fails to decrypt
(its length field is 0, so `unpad` is applied to an empty AES output,
which raises in Python).  `decrypt` then aborts with an error instead
of proceeding with an empty metadata record, refuting the claim that
metadata failure is non-fatal. -/
theorem metadata_failure_swallowed_cex :
    check_magic s6 = true
    ∧ read_key_data ext0 (s6.drop 8) = Except.ok ([0], [0, 0, 0, 0])
    ∧ read_metadata ext0 [0, 0, 0, 0] = Except.error DecryptError.cryptoFailure
    ∧ decrypt ext0 s6 = Except.error DecryptError.cryptoFailure := by
  refine ⟨by rfl, by rfl, by rfl, by rfl⟩

/-- C6 amended: a metadata decrypt/parse failure is fatal for the
decode, exactly like a key-blob failure — when the magic and key blob
stages succeed but `_read_metadata` raises, `decrypt` propagates that
error (the batch layer later records the job as Failed). -/
theorem metadata_failure_fatal (E : Externals) (s keyData s1 : List Nat) (e : DecryptError)
    (hm : check_magic s = true)
    (hk : read_key_data E (s.drop 8) = Except.ok (keyData, s1))
    (hne : keyData ≠ [])
    (hmeta : read_metadata E s1 = Except.error e) :
    decrypt E s = Except.error e := by
  have hp : parse_head E s = Except.error e := by
    rw [parse_head_magic_true E s hm, hk]
    simp only [Bind.bind, Except.bind]
    rw [if_neg hne, hmeta]
  unfold decrypt
  rw [hp]
  rfl

/-- Witness for the amended C6 at the explicit container `s6`. -/
theorem metadata_failure_fatal_witness :
    check_magic s6 = true
    ∧ ([0] : List Nat) ≠ []
    ∧ decrypt ext0 s6 = Except.error DecryptError.cryptoFailure := by
  refine ⟨by rfl, by decide, ?_⟩
  exact metadata_failure_fatal ext0 s6 [0] [0, 0, 0, 0] DecryptError.cryptoFailure
    (by rfl) (by rfl) (by decide) (by rfl)

/-- C10: when parsing succeeds and the audio payload region is empty
(the container ends right after the embedded image region), the decode
loop never runs, so the output bytes are empty and the output
extension comes from the metadata record's `format` field with default
`"mp3"`, not from content sniffing. -/
theorem empty_payload_spec (E : Externals) (s box : List Nat) (meta : NCMMeta)
    (h : parse_head E s = Except.ok (box, meta, [])) :
    decrypt E s = Except.ok (meta.format.getD "mp3", [], meta) := by
  unfold decrypt
  rw [h]
  simp only [Bind.bind, Except.bind]
  rw [audio_loop_nil]

/-- Witness for C10: the explicit container `s10` (empty payload, no
`format` field in its metadata) decodes to an empty output with the
default `"mp3"` extension. -/
theorem empty_payload_spec_witness :
    parse_head ext0 s10 = Except.ok (build_key_box [0], ⟨none⟩, [])
    ∧ decrypt ext0 s10 = Except.ok ("mp3", [], ⟨none⟩) := by
  have h : parse_head ext0 s10 = Except.ok (build_key_box [0], ⟨none⟩, []) := by rfl
  exact ⟨h, empty_payload_spec ext0 s10 (build_key_box [0]) ⟨none⟩ h⟩

lemma cons_set_perm {α : Type} : ∀ (t : List α) (k : Nat) (a : α) (hk : k < t.length),
    (t[k] :: t.set k a).Perm (a :: t) := by
  intro t
  induction t with
  | nil => intro k a hk; simp at hk
  | cons b t ih =>
    intro k a hk
    cases k with
    | zero =>
      simp only [List.getElem_cons_zero, List.set_cons_zero]
      exact List.Perm.swap a b t
    | succ k =>
      simp only [List.getElem_cons_succ, List.set_cons_succ]
      have hk2 : k < t.length := by simpa using hk
      exact ((List.Perm.swap b (t[k]) (t.set k a)).trans
        (List.Perm.cons b (ih k a hk2))).trans (List.Perm.swap a b t)

lemma set_set_perm {α : Type} : ∀ (l : List α) (i j : Nat) (hi : i < l.length)
    (hj : j < l.length), ((l.set i l[j]).set j l[i]).Perm l := by
  intro l
  induction l with
  | nil => intro i j hi hj; simp at hi
  | cons a t ih =>
    intro i j hi hj
    cases i with
    | zero =>
      cases j with
      | zero => simp
      | succ j =>
        have hj2 : j < t.length := by simpa using hj
        simp only [List.getElem_cons_zero, List.getElem_cons_succ, List.set_cons_zero,
          List.set_cons_succ]
        exact cons_set_perm t j a hj2
    | succ i =>
      cases j with
      | zero =>
        have hi2 : i < t.length := by simpa using hi
        simp only [List.getElem_cons_zero, List.getElem_cons_succ, List.set_cons_succ,
          List.set_cons_zero]
        exact cons_set_perm t i a hi2
      | succ j =>
        have hi2 : i < t.length := by simpa using hi
        have hj2 : j < t.length := by simpa using hj
        simp only [List.getElem_cons_succ, List.set_cons_succ]
        exact List.Perm.cons a (ih i j hi2 hj2)

lemma kb_step_perm (keyData box : List Nat) (lb off i : Nat)
    (hbox : box.length = 256) (hi : i < 256) :
    ((kb_step keyData (box, lb, off) i).1).length = 256
    ∧ ((kb_step keyData (box, lb, off) i).1).Perm box := by
  have hi2 : i < box.length := by omega
  have hc2 : (box[i] + lb + keyData.getD off 0) % 256 < box.length := by
    rw [hbox]
    exact Nat.mod_lt _ (by omega)
  constructor
  · unfold kb_step
    simp [hbox]
  · unfold kb_step
    simp only
    rw [List.getD_eq_getElem box 0 hi2, List.getD_eq_getElem box 0 hc2]
    exact set_set_perm box i ((box[i] + lb + keyData.getD off 0) % 256) hi2 hc2

lemma kb_fold_perm (keyData : List Nat) :
    ∀ (l : List Nat) (st : List Nat × Nat × Nat), (∀ i ∈ l, i < 256) →
      st.1.length = 256 →
      ((l.foldl (kb_step keyData) st).1).length = 256
      ∧ ((l.foldl (kb_step keyData) st).1).Perm st.1 := by
  intro l
  induction l with
  | nil => intro st _ hlen; exact ⟨hlen, List.Perm.refl _⟩
  | cons i l ih =>
    intro st hmem hlen
    have hi : i < 256 := hmem i (List.mem_cons_self i l)
    have hstep := kb_step_perm keyData st.1 st.2.1 st.2.2 i hlen hi
    have hrec := ih (kb_step keyData st i) (fun j hj => hmem j (List.mem_cons_of_mem i hj))
      hstep.1
    refine ⟨hrec.1, ?_⟩
    exact hrec.2.trans hstep.2

set_option maxRecDepth 4000 in
/-- C1: for every non-empty key blob, `_build_key_box` returns a
256-entry table that is a permutation of the values `0 .. 255` — no
value lost or duplicated. -/
theorem build_key_box_permutation (keyData : List Nat) (hne : keyData ≠ []) :
    (build_key_box keyData).length = 256
    ∧ (build_key_box keyData).Perm (List.range 256) := by
  unfold build_key_box
  have hlr : ((List.range 256, 0, 0) : List Nat × Nat × Nat).1.length = 256 := by
    rw [List.length_range]
  have h := kb_fold_perm keyData (List.range 256) (List.range 256, 0, 0)
    (fun i hi => List.mem_range.mp hi) hlr
  exact ⟨h.1, h.2⟩

/-- Witness for C1 at the one-byte key blob `[7]`. -/
theorem build_key_box_permutation_witness :
    ([7] : List Nat) ≠ []
    ∧ (build_key_box [7]).length = 256
    ∧ (build_key_box [7]).Perm (List.range 256) := by
  refine ⟨by decide, ?_, ?_⟩
  · exact (build_key_box_permutation [7] (by decide)).1
  · exact (build_key_box_permutation [7] (by decide)).2

lemma length_flatten_replicate (m : List Nat) :
    ∀ n : Nat, ((List.replicate n m).flatten).length = n * m.length := by
  intro n
  induction n with
  | zero => simp
  | succ n ih =>
    rw [List.replicate_succ, List.flatten_cons, List.length_append, ih, Nat.succ_mul,
      Nat.add_comm]

lemma getD_flatten_replicate (m : List Nat) :
    ∀ (n i : Nat), i < n * m.length →
      ((List.replicate n m).flatten).getD i 0 = m.getD (i % m.length) 0 := by
  intro n
  induction n with
  | zero => intro i hi; simp at hi
  | succ n ih =>
    intro i hi
    rw [List.replicate_succ, List.flatten_cons]
    by_cases hcase : i < m.length
    · rw [List.getD_eq_getElem?_getD, List.getElem?_append_left hcase,
        ← List.getD_eq_getElem?_getD, Nat.mod_eq_of_lt hcase]
    · push_neg at hcase
      rw [List.getD_eq_getElem?_getD, List.getElem?_append_right hcase,
        ← List.getD_eq_getElem?_getD]
      have hsm : (n + 1) * m.length = n * m.length + m.length := Nat.succ_mul n m.length
      rw [hsm] at hi
      rw [ih (i - m.length) (by omega)]
      congr 1
      exact (Nat.mod_eq_sub_mod hcase).symm

lemma base_mask_length (box : List Nat) : (base_mask box).length = 256 := by
  simp [base_mask]

lemma base_mask_getD (box : List Nat) (i : Nat) (hi : i < 256) :
    (base_mask box).getD i 0 = mask_byte box i := by
  unfold base_mask
  rw [List.getD_eq_getElem?_getD, List.getElem?_map, List.getElem?_range hi]
  rfl

lemma create_decryption_mask_length (box : List Nat) :
    (create_decryption_mask box).length = CHUNK_SIZE := by
  unfold create_decryption_mask
  rw [length_flatten_replicate, base_mask_length]
  decide

lemma create_decryption_mask_getD (box : List Nat) (i : Nat) (hi : i < CHUNK_SIZE) :
    (create_decryption_mask box).getD i 0 = mask_byte box (i % 256) := by
  unfold create_decryption_mask
  have hb : i < CHUNK_SIZE / 256 * (base_mask box).length := by
    rw [base_mask_length]
    simpa [CHUNK_SIZE] using hi
  rw [getD_flatten_replicate (base_mask box) (CHUNK_SIZE / 256) i hb, base_mask_length,
    base_mask_getD box (i % 256) (Nat.mod_lt i (by omega))]

lemma create_mask_periodic (box : List Nat) :
    ∀ j : Nat, j < CHUNK_SIZE →
      (create_decryption_mask box).getD j 0 = (create_decryption_mask box).getD (j % 256) 0 := by
  intro j hj
  have hj2 : j % 256 < CHUNK_SIZE := by
    have : j % 256 < 256 := Nat.mod_lt j (by omega)
    simp only [CHUNK_SIZE]
    omega
  rw [create_decryption_mask_getD box j hj, create_decryption_mask_getD box (j % 256) hj2]
  congr 1
  omega

/-- C2: the keystream mask.  The 256-byte base mask obeys
`mask[i] = box[(box[j] + box[(box[j] + j) mod 256]) mod 256]` with
`j = (i + 1) mod 256`; the full chunk mask is the base mask repeated
exactly `CHUNK_SIZE / 256 = 128` times (so byte `i` of the full mask is
base-mask byte `i mod 256`); and the derivation is a pure function of
the key box alone — identical boxes give byte-identical masks,
independent of any payload. -/
theorem decryption_mask_spec (box : List Nat) (hbox : box.length = 256) :
    (∀ i : Nat, i < 256 → (base_mask box).getD i 0 =
      box.getD ((box.getD ((i + 1) % 256) 0 +
        box.getD ((box.getD ((i + 1) % 256) 0 + (i + 1) % 256) % 256) 0) % 256) 0)
    ∧ create_decryption_mask box = (List.replicate (CHUNK_SIZE / 256) (base_mask box)).flatten
    ∧ CHUNK_SIZE / 256 = 128
    ∧ (create_decryption_mask box).length = CHUNK_SIZE
    ∧ (∀ i : Nat, i < CHUNK_SIZE →
        (create_decryption_mask box).getD i 0 = (base_mask box).getD (i % 256) 0)
    ∧ (∀ box2 : List Nat, box2 = box →
        create_decryption_mask box2 = create_decryption_mask box) := by
  refine ⟨?_, rfl, by decide, create_decryption_mask_length box, ?_, ?_⟩
  · intro i hi
    rw [base_mask_getD box i hi]
    rfl
  · intro i hi
    have hmod : i % 256 < 256 := Nat.mod_lt i (by omega)
    rw [create_decryption_mask_getD box i hi, base_mask_getD box (i % 256) hmod]
  · intro box2 h
    rw [h]

/-- Witness for C2 at the identity key box `List.range 256`. -/
theorem decryption_mask_spec_witness :
    (List.range 256).length = 256
    ∧ create_decryption_mask (List.range 256) =
        (List.replicate (CHUNK_SIZE / 256) (base_mask (List.range 256))).flatten := by
  refine ⟨List.length_range 256, ?_⟩
  exact (decryption_mask_spec (List.range 256) (List.length_range 256)).2.1

lemma getD_zipWith_xor : ∀ (a b : List Nat) (i : Nat), i < a.length → i < b.length →
    (List.zipWith Nat.xor a b).getD i 0 = a.getD i 0 ^^^ b.getD i 0 := by
  intro a
  induction a with
  | nil => intro b i h1 h2; simp at h1
  | cons x a ih =>
    intro b i h1 h2
    cases b with
    | nil => simp at h2
    | cons y b =>
      cases i with
      | zero => rfl
      | succ i =>
        rw [List.zipWith_cons_cons, List.getD_cons_succ, List.getD_cons_succ,
          List.getD_cons_succ]
        exact ih b i (by simpa using h1) (by simpa using h2)

lemma audio_loop_length (mask : List Nat) (hm : CHUNK_SIZE ≤ mask.length) :
    ∀ (n : Nat) (s : List Nat), s.length ≤ n → ∀ (fc : Bool) (f : String),
      ((audio_loop mask s fc f).2).length = s.length := by
  intro n
  induction n with
  | zero =>
    intro s hs fc f
    have hnil : s = [] := by cases s <;> simp_all
    subst hnil
    rw [audio_loop_nil]
  | succ n ih =>
    intro s hs fc f
    by_cases h : s = []
    · subst h
      rw [audio_loop_nil]
    · rw [audio_loop_ne _ _ _ _ h]
      have hC : 0 < CHUNK_SIZE := by decide
      have hpos : 0 < s.length := List.length_pos.mpr h
      have hrec := ih (s.drop CHUNK_SIZE) (by simp only [List.length_drop]; omega) false
      simp only [List.length_append, List.length_zipWith, List.length_take,
        List.length_drop, hrec]
      omega

lemma audio_loop_getD (mask : List Nat) (hm : CHUNK_SIZE ≤ mask.length)
    (hper : ∀ j : Nat, j < CHUNK_SIZE → mask.getD j 0 = mask.getD (j % 256) 0) :
    ∀ (n : Nat) (s : List Nat), s.length ≤ n → ∀ (fc : Bool) (f : String) (i : Nat),
      i < s.length →
      ((audio_loop mask s fc f).2).getD i 0 = s.getD i 0 ^^^ mask.getD (i % 256) 0 := by
  intro n
  induction n with
  | zero => intro s hs fc f i hi; omega
  | succ n ih =>
    intro s hs fc f i hi
    have h : s ≠ [] := by intro he; rw [he] at hi; simp at hi
    have hC : 0 < CHUNK_SIZE := by decide
    have hpos : 0 < s.length := List.length_pos.mpr h
    rw [audio_loop_ne _ _ _ _ h]
    simp only
    have hd_len :
        (List.zipWith Nat.xor (s.take CHUNK_SIZE)
          (mask.take (s.take CHUNK_SIZE).length)).length = min CHUNK_SIZE s.length := by
      simp only [List.length_zipWith, List.length_take]
      omega
    by_cases hcase : i < CHUNK_SIZE
    · have hilt : i < (List.zipWith Nat.xor (s.take CHUNK_SIZE)
          (mask.take (s.take CHUNK_SIZE).length)).length := by
        rw [hd_len]
        omega
      rw [List.getD_eq_getElem?_getD, List.getElem?_append_left hilt,
        ← List.getD_eq_getElem?_getD]
      rw [getD_zipWith_xor _ _ i (by simp only [List.length_take]; omega)
        (by simp only [List.length_take]; omega)]
      rw [List.getD_eq_getElem?_getD (s.take CHUNK_SIZE), List.getElem?_take_of_lt hcase,
        ← List.getD_eq_getElem?_getD]
      rw [List.getD_eq_getElem?_getD (mask.take (s.take CHUNK_SIZE).length),
        List.getElem?_take_of_lt (by simp only [List.length_take]; omega),
        ← List.getD_eq_getElem?_getD]
      rw [hper i hcase]
    · push_neg at hcase
      have hskip : (List.zipWith Nat.xor (s.take CHUNK_SIZE)
          (mask.take (s.take CHUNK_SIZE).length)).length ≤ i := by
        rw [hd_len]
        omega
      rw [List.getD_eq_getElem?_getD, List.getElem?_append_right hskip,
        ← List.getD_eq_getElem?_getD, hd_len]
      have hmin : min CHUNK_SIZE s.length = CHUNK_SIZE := by omega
      rw [hmin]
      rw [ih (s.drop CHUNK_SIZE) (by simp only [List.length_drop]; omega) false]
      · have e1 : (s.drop CHUNK_SIZE).getD (i - CHUNK_SIZE) 0 = s.getD i 0 := by
          rw [List.getD_eq_getElem?_getD, List.getElem?_drop, ← List.getD_eq_getElem?_getD]
          have hadd : CHUNK_SIZE + (i - CHUNK_SIZE) = i := by omega
          rw [hadd]
        have e2 : (i - CHUNK_SIZE) % 256 = i % 256 := by
          have h256 : CHUNK_SIZE = 128 * 256 := by decide
          rw [h256] at hcase
          rw [h256]
          omega
        rw [e1, e2]
      · simp only [List.length_drop]
        omega

lemma tiled_mask_getD (box : List Nat) (n i : Nat) (hi : i < n) :
    (tiled_mask box n).getD i 0 = mask_byte box (i % 256) := by
  unfold tiled_mask
  rw [List.getD_eq_getElem?_getD, List.getElem?_map, List.getElem?_range hi]
  rfl

lemma xor_encrypt_length (box p : List Nat) : (xor_encrypt box p).length = p.length := by
  simp [xor_encrypt, tiled_mask, List.length_zipWith]

lemma xor_encrypt_getD (box p : List Nat) (i : Nat) (hi : i < p.length) :
    (xor_encrypt box p).getD i 0 = p.getD i 0 ^^^ mask_byte box (i % 256) := by
  have hlen2 : i < (tiled_mask box p.length).length := by
    unfold tiled_mask
    simp only [List.length_map, List.length_range]
    exact hi
  unfold xor_encrypt
  rw [getD_zipWith_xor _ _ i hi hlen2, tiled_mask_getD box _ i hi]

lemma roundtrip_all (box p : List Nat) (fmt : String) :
    (audio_loop (create_decryption_mask box) (xor_encrypt box p) true fmt).2 = p := by
  have hm : CHUNK_SIZE ≤ (create_decryption_mask box).length := by
    rw [create_decryption_mask_length]
  have hper := create_mask_periodic box
  have hlenout : ((audio_loop (create_decryption_mask box) (xor_encrypt box p) true fmt).2).length
      = (xor_encrypt box p).length :=
    audio_loop_length _ hm (xor_encrypt box p).length _ (Nat.le_refl _) _ _
  apply List.ext_getElem
  · rw [hlenout, xor_encrypt_length]
  · intro i h1 h2
    have hip : i < p.length := h2
    have hie : i < (xor_encrypt box p).length := by
      rw [xor_encrypt_length]
      exact hip
    have hout := audio_loop_getD (create_decryption_mask box) hm hper
      (xor_encrypt box p).length (xor_encrypt box p) (Nat.le_refl _) true fmt i hie
    rw [xor_encrypt_getD box p i hip] at hout
    have hmask : (create_decryption_mask box).getD (i % 256) 0 = mask_byte box (i % 256) := by
      have hsmall : i % 256 < CHUNK_SIZE := by
        have : i % 256 < 256 := Nat.mod_lt i (by omega)
        simp only [CHUNK_SIZE]
        omega
      rw [create_decryption_mask_getD box (i % 256) hsmall]
      congr 1
      omega
    rw [hmask, Nat.xor_assoc, Nat.xor_self, Nat.xor_zero] at hout
    rw [← List.getD_eq_getElem _ 0 h1, ← List.getD_eq_getElem _ 0 h2]
    exact hout

/-- C3: for every key box and every payload of length 0, 1, 255, 256,
257, one full chunk (`CHUNK_SIZE`) or one full chunk plus a partial
chunk, XOR-encrypting with the tiled keystream mask and then running
the chunked decrypt loop (`strxor` with the mask truncated to each
chunk's length) reproduces the plaintext exactly. -/
theorem decrypt_roundtrip (box p : List Nat) (fmt : String)
    (hlen : p.length = 0 ∨ p.length = 1 ∨ p.length = 255 ∨ p.length = 256 ∨ p.length = 257
      ∨ p.length = CHUNK_SIZE ∨ (CHUNK_SIZE < p.length ∧ p.length < 2 * CHUNK_SIZE)) :
    (audio_loop (create_decryption_mask box) (xor_encrypt box p) true fmt).2 = p :=
  roundtrip_all box p fmt

/-- Witness for C3: a one-byte payload under the identity key box. -/
theorem decrypt_roundtrip_witness :
    (([0x42] : List Nat).length = 0 ∨ ([0x42] : List Nat).length = 1
      ∨ ([0x42] : List Nat).length = 255 ∨ ([0x42] : List Nat).length = 256
      ∨ ([0x42] : List Nat).length = 257 ∨ ([0x42] : List Nat).length = CHUNK_SIZE
      ∨ (CHUNK_SIZE < ([0x42] : List Nat).length
          ∧ ([0x42] : List Nat).length < 2 * CHUNK_SIZE))
    ∧ (audio_loop (create_decryption_mask (List.range 256))
        (xor_encrypt (List.range 256) [0x42]) true "mp3").2 = [0x42] := by
  refine ⟨by right; left; rfl, ?_⟩
  exact decrypt_roundtrip (List.range 256) [0x42] "mp3" (by right; left; rfl)
